import Mathlib

/-!
Shallow embedding of the CliMenu firmware (src/src/main.cpp, the ESP32
variant, and src/src/cliMenu.cpp, the Arduino Uno variant): a static
command menu dispatched over single-character keys read from a serial
stream, blocking value-entry handlers built on the Arduino `Stream`
parsing primitives, and a periodic heartbeat on a GPIO pin.

The serial input available during one read cycle is a `List Char`.  The
Arduino core / libc collaborators that the firmware links against
(`Stream::parseInt`, `Stream::parseFloat`, `Stream::readString`, `sscanf`,
`mktime`) are modelled as pure functions on that list, following their
documented semantics.  Program state (pending input, emitted output,
dispatcher invocation trace, the heartbeat-enabled flag, the serial
timeout, the RTC value) is explicit, and each menu action of main.cpp is a
state transformer.
-/

namespace CliMenu

/-! ### Arduino Stream parsing collaborators

`Stream::parseInt` first consumes characters until the next character is a
digit or a minus sign (`peekNextDigit` with lookahead `SKIP_ALL`), then
consumes that character and every following digit, accumulating
`value = value * 10 + c - '0'` and negating at the end if the first
accepted character was `'-'`.  The first non-digit after the run is left
in the stream.  If the stream runs dry before any digit or `'-'` is seen,
the call returns 0.  (The `ignore` character of the Arduino source is the
unused sentinel `'\x01'` and is not modelled; `long` overflow is
immaterial for the inputs considered here, so the accumulator is an
unbounded `Int`.) -/

/-- Accumulate decimal digits onto `init`, as the Arduino parse loop does
with `value = value * 10 + c - '0'`. -/
def digitsVal (init : Int) : List Char → Int
  | [] => init
  | c :: cs => digitsVal (init * 10 + ((c.toNat : Int) - 48)) cs

/-- `peekNextDigit(SKIP_ALL, false)`: drop characters until the head is a
digit or `'-'`; the dropped characters are consumed from the stream. -/
def skipToNumeric : List Char → List Char
  | [] => []
  | c :: cs => if c = '-' || c.isDigit then c :: cs else skipToNumeric cs

/-- One call of `Stream::parseInt` on the available bytes: the returned
value and the bytes still available afterwards. -/
def parseIntStep (l : List Char) : Int × List Char :=
  match skipToNumeric l with
  | [] => (0, [])
  | c :: cs =>
    let v := digitsVal (if c.isDigit then (c.toNat : Int) - 48 else 0) (cs.takeWhile Char.isDigit)
    (if c = '-' then -v else v, cs.dropWhile Char.isDigit)

/-- The `while (Serial.available()) value = Serial.parseInt();` drain loop
of `enterInteger`, fuelled by the length of the available input (each
`parseInt` call on a non-empty stream consumes at least one byte). -/
def drainIntFuel : Nat → Int → List Char → Int
  | 0, v, _ => v
  | _ + 1, v, [] => v
  | fuel + 1, _, c :: cs => drainIntFuel fuel (parseIntStep (c :: cs)).1 (parseIntStep (c :: cs)).2

/-- Value reported by `enterInteger`'s drain loop, starting from the
declared initial `value = 0`. -/
def drainInt (l : List Char) : Int := drainIntFuel l.length 0 l

/-- The successive values produced by the iterations of the
`parseInt` drain loop, in order. -/
def parseIntsFuel : Nat → List Char → List Int
  | 0, _ => []
  | _ + 1, [] => []
  | fuel + 1, c :: cs => (parseIntStep (c :: cs)).1 :: parseIntsFuel fuel (parseIntStep (c :: cs)).2

/-- All values parsed by successive `parseInt` calls over one read cycle. -/
def parseInts (l : List Char) : List Int := parseIntsFuel l.length l

/-- `peekNextDigit(SKIP_ALL, true)`: as `skipToNumeric`, but a decimal
point also stops the skip (`parseFloat` detects decimals). -/
def skipToFloatStart : List Char → List Char
  | [] => []
  | c :: cs => if c = '-' || c = '.' || c.isDigit then c :: cs else skipToFloatStart cs

/-- The do-while loop of `Stream::parseFloat`: process the current
character `c`, then continue while the next character is a digit, or a
first decimal point.  Mirrors the Arduino loop state
(`isNegative`, `isFraction`, `value`, `fraction`); the `double`
arithmetic is idealised as exact rational arithmetic. -/
def floatGo : Char → List Char → Bool → Bool → ℚ → ℚ → ℚ × List Char
  | c, rest, isNegative, isFraction, value, fraction =>
    let isNegative2 := isNegative || c = '-'
    let isFraction2 := isFraction || c = '.'
    let value2 :=
      if c.isDigit then
        if isFraction2 then value + fraction * (1 / 10) * ((c.toNat : ℚ) - 48)
        else value * 10 + ((c.toNat : ℚ) - 48)
      else value
    let fraction2 :=
      if c.isDigit && isFraction2 then fraction * (1 / 10) else fraction
    match rest with
    | [] => (if isNegative2 then -value2 else value2, [])
    | c2 :: rest2 =>
      if c2.isDigit || (c2 = '.' && !isFraction2) then
        floatGo c2 rest2 isNegative2 isFraction2 value2 fraction2
      else (if isNegative2 then -value2 else value2, c2 :: rest2)

/-- One call of `Stream::parseFloat` on the available bytes. -/
def parseFloatStep (l : List Char) : ℚ × List Char :=
  match skipToFloatStart l with
  | [] => (0, [])
  | c :: cs => floatGo c cs false false 0 1

/-- The `while (Serial.available()) value = Serial.parseFloat();` drain
loop of `enterFloat`. -/
def drainFloatFuel : Nat → ℚ → List Char → ℚ
  | 0, v, _ => v
  | _ + 1, v, [] => v
  | fuel + 1, _, c :: cs => drainFloatFuel fuel (parseFloatStep (c :: cs)).1 (parseFloatStep (c :: cs)).2

/-- Value reported by `enterFloat`'s drain loop, starting from `value = 0`. -/
def drainFloat (l : List Char) : ℚ := drainFloatFuel l.length 0 l

/-- The successive values produced by the iterations of the
`parseFloat` drain loop, in order. -/
def parseFloatsFuel : Nat → List Char → List ℚ
  | 0, _ => []
  | _ + 1, [] => []
  | fuel + 1, c :: cs => (parseFloatStep (c :: cs)).1 :: parseFloatsFuel fuel (parseFloatStep (c :: cs)).2

/-- All values parsed by successive `parseFloat` calls over one read cycle. -/
def parseFloats (l : List Char) : List ℚ := parseFloatsFuel l.length l

/-! ### libc collaborators used by `setDateTime`: `sscanf` and `mktime` -/

/-- One `%Nd` conversion of `sscanf`: skip leading whitespace, an optional
sign, then at most `width` characters in total of the field, requiring at
least one digit; returns the value and the remaining characters. -/
def scanInt (width : Nat) (l : List Char) : Option (Int × List Char) :=
  let l1 := l.dropWhile Char.isWhitespace
  let p : Int × Nat × List Char :=
    match l1 with
    | '-' :: r => (-1, width - 1, r)
    | '+' :: r => (1, width - 1, r)
    | _ => (1, width, l1)
  let ds := (p.2.2.takeWhile Char.isDigit).take p.2.1
  if ds.isEmpty then none
  else some (p.1 * digitsVal 0 ds, p.2.2.drop ds.length)

/-- One `%*c` conversion of `sscanf`: consume exactly one character,
assigning nothing. -/
def scanChar : List Char → Option (List Char)
  | [] => none
  | _ :: r => some r

/-- The `sscanf(str, "%4d%*c%2d%*c%2d%*c%2d%*c%2d%*c%2d", ...)` call of
`setDateTime`: six positional fields year, month, day, hour, minute,
second, each pair separated by exactly one arbitrary character.  `none`
models a partial match, which in the C code leaves the remaining `tm`
fields uninitialized. -/
def sscanfDateTime (l : List Char) : Option (Int × Int × Int × Int × Int × Int) := do
  let p1 ← scanInt 4 l
  let l2 ← scanChar p1.2
  let p2 ← scanInt 2 l2
  let l3 ← scanChar p2.2
  let p3 ← scanInt 2 l3
  let l4 ← scanChar p3.2
  let p4 ← scanInt 2 l4
  let l5 ← scanChar p4.2
  let p5 ← scanInt 2 l5
  let l6 ← scanChar p5.2
  let p6 ← scanInt 2 l6
  pure (p1.1, p2.1, p3.1, p4.1, p5.1, p6.1)

/-- The calendar fields of `struct tm` that `setDateTime` fills in. -/
structure Tm where
  tm_sec : Int
  tm_min : Int
  tm_hour : Int
  tm_mday : Int
  tm_mon : Int
  tm_year : Int
deriving DecidableEq, Repr

/-- Days from 1970-01-01 to the civil date `y-m-d` (proleptic Gregorian),
the standard days-from-civil computation used by libc `mktime`; `Int.tdiv`
is C's truncating division. -/
def daysFromCivil (y m d : Int) : Int :=
  let y2 := y - (if m ≤ 2 then 1 else 0)
  let era := Int.tdiv (if 0 ≤ y2 then y2 else y2 - 399) 400
  let yoe := y2 - era * 400
  let doy := Int.tdiv (153 * (m + (if 2 < m then -3 else 9)) + 2) 5 + d - 1
  let doe := yoe * 365 + Int.tdiv yoe 4 - Int.tdiv yoe 100 + doy
  era * 146097 + doe - 719468

/-- `mktime` on the ESP32 with its default UTC timezone (no DST, so the
uninitialized `tm_isdst` is irrelevant for a fully parsed date): seconds
since the Unix epoch of the civil time held in the `tm` fields. -/
def mktime (t : Tm) : Int :=
  86400 * daysFromCivil (t.tm_year + 1900) (t.tm_mon + 1) t.tm_mday
    + 3600 * t.tm_hour + 60 * t.tm_min + t.tm_sec

/-! ### Heartbeat -/

/-- `heartbeat(pin, period, pulseWidth)` from main.cpp: the level written
to the pin by `digitalWrite(pin, millis() % period < pulseWidth ? HIGH :
LOW)`, with `true` for `HIGH`.  `now` is the current `millis()` value; the
function reads nothing else. -/
def heartbeat (now period pulseWidth : Nat) : Bool :=
  decide (now % period < pulseWidth)

/-! ### Program state and the menu actions of main.cpp -/

/-- Names of the menu actions of main.cpp (the `Action` references bound
in the menu table). -/
inductive ActionTag where
  | playRadio
  | sayHello
  | setDateTime
  | showDateTime
  | enterInteger
  | enterFloat
  | enterString
  | toggleHeartbeat
  | showMenu
deriving DecidableEq, Repr

/-- A `MenuItem` of main.cpp: key, display text, action argument, action. -/
structure MenuItem where
  key : Char
  txt : String
  arg : String
  action : ActionTag
deriving DecidableEq, Repr

/-- The static menu table of main.cpp, in declaration order. -/
def menu : List MenuItem :=
  [ ⟨'0', "[0] Klassik Radio", "http://stream.klassikradio.de/live/mp3-128/stream.klassikradio.de", ActionTag.playRadio⟩,
    ⟨'1', "[1] SRF1 AG-SO", "http://stream.srg-ssr.ch/m/regi_ag_so/mp3_128", ActionTag.playRadio⟩,
    ⟨'2', "[2] SRF2", "http://stream.srg-ssr.ch/m/drs2/mp3_128", ActionTag.playRadio⟩,
    ⟨'3', "[3] SRF3", "http://stream.srg-ssr.ch/m/drs3/mp3_128", ActionTag.playRadio⟩,
    ⟨'h', "[h] Say Hello", "Guten Tag", ActionTag.sayHello⟩,
    ⟨'d', "[d] Set date and time as: yyyy mm dd hh mm ss", "", ActionTag.setDateTime⟩,
    ⟨'D', "[D] Show date and time", "", ActionTag.showDateTime⟩,
    ⟨'i', "[i] Enter an integer", "", ActionTag.enterInteger⟩,
    ⟨'f', "[f] Enter a float", "", ActionTag.enterFloat⟩,
    ⟨'s', "[s] Enter a string", "", ActionTag.enterString⟩,
    ⟨'t', "[t] Toggle heartbeat", "", ActionTag.toggleHeartbeat⟩,
    ⟨'S', "[S] Show menu", "", ActionTag.showMenu⟩ ]

/-- A `MenuItem` of cliMenu.cpp (the Uno variant has no argument field). -/
structure MenuItemUno where
  key : Char
  txt : String
  action : ActionTag
deriving DecidableEq, Repr

/-- The static menu table of cliMenu.cpp, in declaration order. -/
def menuUno : List MenuItemUno :=
  [ ⟨'h', "[h] Say Hello", ActionTag.sayHello⟩,
    ⟨'i', "[i] Enter an integer", ActionTag.enterInteger⟩,
    ⟨'f', "[f] Enter a float", ActionTag.enterFloat⟩,
    ⟨'s', "[s] Enter a string", ActionTag.enterString⟩,
    ⟨'t', "[t] Toggle heartbeat", ActionTag.toggleHeartbeat⟩,
    ⟨'S', "[S] Show menu", ActionTag.showMenu⟩ ]

/-- One observable output emission on the serial line.  Formatted prints
carry the formatted value (`intEntered` for `"%d was entered "`,
`floatEntered` for `"%f was entered "`, `dateTimeShown` for the
`strftime` rendering of the RTC time). -/
inductive OutEvent where
  | clearLine
  | text (s : String)
  | intEntered (v : Int)
  | floatEntered (v : ℚ)
  | dateTimeShown (t : Option Int)
deriving DecidableEq, Repr

/-- The mutable program state plus the observable traces of one run:
pending serial input, emitted output, the dispatcher's handler-invocation
trace, the global `heartbeatEnabled` flag, the serial timeout and the
trace of timeouts in force at each bulk read, the RTC value set by
`settimeofday` (`none` = never set or set to an unspecified value), the
LED pin level, and the menu table (static data, carried in the state to
express that no operation mutates it). -/
structure State where
  input : List Char
  output : List OutEvent
  calls : List (ActionTag × String)
  heartbeatEnabled : Bool
  timeout : Nat
  readTimeouts : List Nat
  rtc : Option Int
  pin : Bool
  menuTable : List MenuItem
deriving DecidableEq, Repr

/-- The `while (Serial.available()) str = Serial.readString();` drain of
`setDateTime` / `enterString`: `readString` collects every available byte
(reading ends only at the inactivity timeout), so the loop body runs at
most once and returns the whole pending input; the read is recorded with
the timeout in force. -/
def drainReadString (s : State) : String × State :=
  if s.input.isEmpty then ("", s)
  else (String.mk s.input, { s with input := [], readTimeouts := s.readTimeouts ++ [s.timeout] })

/-- The `while (Serial.available()) value = Serial.parseInt();` drain of
`enterInteger`, at the state level. -/
def drainIntState (s : State) : Int × State :=
  if s.input.isEmpty then (0, s)
  else (drainInt s.input, { s with input := [], readTimeouts := s.readTimeouts ++ [s.timeout] })

/-- The `while (Serial.available()) value = Serial.parseFloat();` drain of
`enterFloat`, at the state level. -/
def drainFloatState (s : State) : ℚ × State :=
  if s.input.isEmpty then (0, s)
  else (drainFloat s.input, { s with input := [], readTimeouts := s.readTimeouts ++ [s.timeout] })

/-- `playRadio`: prints the stream URL (stub, no actual playback). -/
def playRadio (url : String) (s : State) : State :=
  { s with output := s.output ++ [OutEvent.text ("Playing: " ++ url)] }

/-- `sayHello`: prints its argument. -/
def sayHello (txt : String) (s : State) : State :=
  { s with output := s.output ++ [OutEvent.text txt] }

/-- `showDateTime`: prints the `strftime` rendering of the RTC time. -/
def showDateTime (txt : String) (s : State) : State :=
  { s with output := s.output ++ [OutEvent.dateTimeShown s.rtc] }

/-- `setDateTime`: saves the stream timeout, extends it to 3x, drains the
input with `readString`, restores the timeout, parses the text with
`sscanf`, applies `tm_mon -= 1; tm_year -= 1900`, converts with `mktime`
and sets the RTC via `settimeofday`, then calls `showDateTime`.  On a
partial `sscanf` match the C code hands uninitialized `tm` fields to
`mktime`, so the RTC is set to an unspecified value, modelled as `none`. -/
def setDateTime (txt : String) (s : State) : State :=
  let timeout := s.timeout
  let s1 := { s with timeout := 3 * timeout }
  let p := drainReadString s1
  let s3 := { p.2 with timeout := timeout }
  match sscanfDateTime p.1.toList with
  | some (y, mo, d, h, mi, sec) =>
    showDateTime "" { s3 with
      rtc := some (mktime { tm_sec := sec, tm_min := mi, tm_hour := h,
                            tm_mday := d, tm_mon := mo - 1, tm_year := y - 1900 }) }
  | none => showDateTime "" { s3 with rtc := none }

/-- `enterInteger`: drains the input with `parseInt` and reports the last
parsed value via `snprintf("%d was entered ")`. -/
def enterInteger (txt : String) (s : State) : State :=
  let p := drainIntState s
  { p.2 with output := p.2.output ++ [OutEvent.intEntered p.1] }

/-- `enterFloat`: drains the input with `parseFloat` and reports the last
parsed value via `snprintf("%f was entered ")`. -/
def enterFloat (txt : String) (s : State) : State :=
  let p := drainFloatState s
  { p.2 with output := p.2.output ++ [OutEvent.floatEntered p.1] }

/-- `enterString`: drains the input with `readString` and prints it. -/
def enterString (txt : String) (s : State) : State :=
  let p := drainReadString s
  { p.2 with output := p.2.output ++ [OutEvent.text p.1] }

/-- `toggleHeartbeat`: negates the global flag and reports the new value. -/
def toggleHeartbeat (txt : String) (s : State) : State :=
  { s with heartbeatEnabled := !s.heartbeatEnabled,
           output := s.output ++
             [OutEvent.text (if !s.heartbeatEnabled then "Heartbeat on " else "Heartbeat off ")] }

/-- The title raw string printed by `showMenu`. -/
def menuTitle : String := "\n---------------\n CLI Menu Demo \n---------------\n"

/-- `showMenu`: prints the title, one line per menu entry, and the prompt. -/
def showMenu (txt : String) (s : State) : State :=
  { s with output := s.output ++ [OutEvent.text menuTitle]
      ++ s.menuTable.map (fun e => OutEvent.text (e.txt ++ "\r\n"))
      ++ [OutEvent.text "\nPress a key: "] }

/-- Invoke the action bound to `a` with argument `arg`, recording the
dispatcher-level invocation in the `calls` trace. -/
def runAction (a : ActionTag) (arg : String) (s : State) : State :=
  let s1 := { s with calls := s.calls ++ [(a, arg)] }
  match a with
  | ActionTag.playRadio => playRadio arg s1
  | ActionTag.sayHello => sayHello arg s1
  | ActionTag.setDateTime => setDateTime arg s1
  | ActionTag.showDateTime => showDateTime arg s1
  | ActionTag.enterInteger => enterInteger arg s1
  | ActionTag.enterFloat => enterFloat arg s1
  | ActionTag.enterString => enterString arg s1
  | ActionTag.toggleHeartbeat => toggleHeartbeat arg s1
  | ActionTag.showMenu => showMenu arg s1

/-- The linear scan of `doMenu`: `if (key == menu[i].key) { ...; break; }`
returns the first entry whose key matches, if any. -/
def findEntry (key : Char) : List MenuItem → Option MenuItem
  | [] => none
  | e :: es => if key = e.key then some e else findEntry key es

/-- `doMenu` from main.cpp: read one key (`Serial.read` yields -1, i.e.
`'\xFF'` as a char, when nothing is available), emit the line-clear
sequence, then scan the menu table and invoke the first matching entry's
action with its argument, stopping at the first match; an unmatched key
invokes nothing. -/
def doMenu (s : State) : State :=
  let key := s.input.headD (Char.ofNat 255)
  let s1 := { s with input := s.input.tail, output := s.output ++ [OutEvent.clearLine] }
  match findEntry key s.menuTable with
  | some e => runAction e.action e.arg s1
  | none => s1

/-- One pass of `loop()`: dispatch if a byte is available, then service
the heartbeat when enabled (`now` is the `millis()` value of this pass). -/
def loopStep (now : Nat) (s : State) : State :=
  let s1 := if s.input.isEmpty then s else doMenu s
  if s1.heartbeatEnabled then { s1 with pin := heartbeat now 1000 20 } else s1

/-- The state at the start of `setup()`: `heartbeatEnabled = true`, the
default 1000 ms serial timeout, the static menu table, nothing yet
emitted. -/
def initState (input : List Char) : State :=
  { input := input, output := [], calls := [], heartbeatEnabled := true,
    timeout := 1000, readTimeouts := [], rtc := none, pin := false, menuTable := menu }

/-- States reachable by the firmware: `setup()` ends with `showMenu`, each
`loop()` pass applies `loopStep`, and the environment may append bytes to
the serial input at any time. -/
inductive Reachable : State → Prop where
  | boot (input : List Char) : Reachable (showMenu "" (initState input))
  | step (now : Nat) {s : State} : Reachable s → Reachable (loopStep now s)
  | feed (bytes : List Char) {s : State} : Reachable s → Reachable { s with input := s.input ++ bytes }


/-! ### Frame and scan lemmas -/

/-- Every dispatched action appends exactly its own invocation to the
`calls` trace (no handler adds or removes dispatcher-level invocations). -/
lemma runAction_calls (a : ActionTag) (arg : String) (s : State) :
    (runAction a arg s).calls = s.calls ++ [(a, arg)] := by
  cases a <;>
    simp only [runAction, playRadio, sayHello, setDateTime, showDateTime, enterInteger,
      enterFloat, enterString, toggleHeartbeat, showMenu, drainReadString,
      drainIntState, drainFloatState] <;>
    repeat' split
  all_goals simp [showDateTime]

/-- No action mutates the menu table. -/
lemma runAction_menuTable (a : ActionTag) (arg : String) (s : State) :
    (runAction a arg s).menuTable = s.menuTable := by
  cases a <;>
    simp only [runAction, playRadio, sayHello, setDateTime, showDateTime, enterInteger,
      enterFloat, enterString, toggleHeartbeat, showMenu, drainReadString,
      drainIntState, drainFloatState] <;>
    repeat' split
  all_goals simp [showDateTime]

/-- No action other than `setDateTime` touches the stream timeout. -/
lemma runAction_timeout (a : ActionTag) (arg : String) (s : State)
    (h : a ≠ ActionTag.setDateTime) : (runAction a arg s).timeout = s.timeout := by
  cases a <;> try exact absurd rfl h
  all_goals
    simp only [runAction, playRadio, sayHello, showDateTime, enterInteger,
      enterFloat, enterString, toggleHeartbeat, showMenu, drainReadString,
      drainIntState, drainFloatState] <;>
    repeat' split
  all_goals simp

/-- When some entry matches, the linear scan returns the first matching
entry in declaration order. -/
lemma findEntry_first (key : Char) (l : List MenuItem) (h : ∃ e ∈ l, e.key = key) :
    ∃ pre e post, l = pre ++ e :: post ∧ e.key = key ∧ (∀ x ∈ pre, x.key ≠ key) ∧
      findEntry key l = some e := by
  induction l with
  | nil => simp at h
  | cons a as ih =>
    by_cases hk : key = a.key
    · exact ⟨[], a, as, rfl, hk.symm, by simp, by simp [findEntry, hk]⟩
    · have h2 : ∃ e ∈ as, e.key = key := by
        obtain ⟨e, he, hek⟩ := h
        rcases List.mem_cons.mp he with rfl | hmem
        · exact absurd hek.symm hk
        · exact ⟨e, hmem, hek⟩
      obtain ⟨pre, e, post, hdec, hek, hpre, hfind⟩ := ih h2
      refine ⟨a :: pre, e, post, by simp [hdec], hek, ?_, ?_⟩
      · intro x hx
        rcases List.mem_cons.mp hx with rfl | hmem
        · exact fun hc => hk hc.symm
        · exact hpre x hmem
      · simp [findEntry, hk, hfind]

/-- When no entry matches, the linear scan finds nothing. -/
lemma findEntry_none (key : Char) (l : List MenuItem) (h : ∀ e ∈ l, e.key ≠ key) :
    findEntry key l = none := by
  induction l with
  | nil => rfl
  | cons a as ih =>
    have hne : key ≠ a.key := fun hc => h a (by simp) hc.symm
    simp only [findEntry, if_neg hne]
    exact ih fun e he => h e (List.mem_cons_of_mem a he)

/-- The integer drain loop returns the value of its last iteration
(each iteration overwrites `value`), i.e. the last element of the parse
sequence, defaulting to the initial accumulator. -/
lemma drainIntFuel_getLastD (fuel : Nat) :
    ∀ (v : Int) (l : List Char), drainIntFuel fuel v l = (parseIntsFuel fuel l).getLastD v := by
  induction fuel with
  | zero => intro v l; rfl
  | succ n ih =>
    intro v l
    cases l with
    | nil => rfl
    | cons c cs =>
      simp only [drainIntFuel, parseIntsFuel, List.getLastD_cons]
      exact ih _ _

/-- The float drain loop returns the value of its last iteration. -/
lemma drainFloatFuel_getLastD (fuel : Nat) :
    ∀ (v : ℚ) (l : List Char), drainFloatFuel fuel v l = (parseFloatsFuel fuel l).getLastD v := by
  induction fuel with
  | zero => intro v l; rfl
  | succ n ih =>
    intro v l
    cases l with
    | nil => rfl
    | cons c cs =>
      simp only [drainFloatFuel, parseFloatsFuel, List.getLastD_cons]
      exact ih _ _

/-- On digitless input, `peekNextDigit(SKIP_ALL, false)` either exhausts
the stream or stops at a minus sign. -/
lemma nodigit_skipToNumeric (l : List Char) (h : ∀ c ∈ l, c.isDigit = false) :
    skipToNumeric l = [] ∨
      ∃ cs, skipToNumeric l = '-' :: cs ∧ ∀ c ∈ cs, c.isDigit = false := by
  induction l with
  | nil => exact Or.inl rfl
  | cons a as ih =>
    have ha := h a (by simp)
    by_cases hm : a = '-'
    · subst hm
      exact Or.inr ⟨as, by simp [skipToNumeric], fun c hc => h c (by simp [hc])⟩
    · have he : skipToNumeric (a :: as) = skipToNumeric as := by
        simp [skipToNumeric, hm, ha]
      rw [he]
      exact ih fun c hc => h c (by simp [hc])

lemma takeWhile_isDigit_eq_nil (l : List Char) (h : ∀ c ∈ l, c.isDigit = false) :
    l.takeWhile Char.isDigit = [] := by
  cases l with
  | nil => rfl
  | cons a as => simp [List.takeWhile_cons, h a (by simp)]

lemma dropWhile_isDigit_eq_self (l : List Char) (h : ∀ c ∈ l, c.isDigit = false) :
    l.dropWhile Char.isDigit = l := by
  cases l with
  | nil => rfl
  | cons a as => simp [List.dropWhile_cons, h a (by simp)]

/-- `parseInt` on digitless input returns 0 and leaves only digitless
input behind. -/
lemma parseIntStep_nodigit (l : List Char) (h : ∀ c ∈ l, c.isDigit = false) :
    (parseIntStep l).1 = 0 ∧ ∀ c ∈ (parseIntStep l).2, c.isDigit = false := by
  rcases nodigit_skipToNumeric l h with h0 | ⟨cs, hcs, hnd⟩
  · simp [parseIntStep, h0]
  · simp [parseIntStep, hcs, takeWhile_isDigit_eq_nil cs hnd,
      dropWhile_isDigit_eq_self cs hnd, digitsVal]
    exact hnd

/-- The integer drain loop reports 0 when the input holds no digit. -/
lemma drainIntFuel_nodigit (fuel : Nat) :
    ∀ l : List Char, (∀ c ∈ l, c.isDigit = false) → drainIntFuel fuel 0 l = 0 := by
  induction fuel with
  | zero => intro l _; rfl
  | succ n ih =>
    intro l h
    cases l with
    | nil => rfl
    | cons c cs =>
      obtain ⟨h1, h2⟩ := parseIntStep_nodigit (c :: cs) h
      rw [drainIntFuel, h1]
      exact ih _ h2

/-- The `parseFloat` accumulation loop keeps a zero value as long as no
digit is processed. -/
lemma floatGo_nodigit (rest : List Char) :
    ∀ (c : Char) (neg frac : Bool) (fraction : ℚ), c.isDigit = false →
    (∀ x ∈ rest, x.isDigit = false) →
    (floatGo c rest neg frac 0 fraction).1 = 0 ∧
      ∀ x ∈ (floatGo c rest neg frac 0 fraction).2, x.isDigit = false := by
  induction rest with
  | nil =>
    intro c neg frac fraction hc _
    simp [floatGo, hc]
  | cons c2 rest2 ih =>
    intro c neg frac fraction hc h
    have hc2 : c2.isDigit = false := h c2 (by simp)
    have h2 : ∀ x ∈ rest2, x.isDigit = false := fun x hx => h x (by simp [hx])
    simp only [floatGo, hc, hc2, Bool.false_eq_true, if_false, Bool.false_or]
    split
    · exact ih c2 _ _ _ hc2 h2
    · constructor
      · split <;> simp
      · intro x hx
        rcases List.mem_cons.mp hx with rfl | hmem
        · exact hc2
        · exact h2 x hmem

/-- On digitless input, `peekNextDigit(SKIP_ALL, true)` either exhausts
the stream or stops at a digitless character. -/
lemma nodigit_skipToFloatStart (l : List Char) (h : ∀ c ∈ l, c.isDigit = false) :
    skipToFloatStart l = [] ∨
      ∃ c cs, skipToFloatStart l = c :: cs ∧ c.isDigit = false ∧
        ∀ x ∈ cs, x.isDigit = false := by
  induction l with
  | nil => exact Or.inl rfl
  | cons a as ih =>
    have ha := h a (by simp)
    by_cases hm : a = '-' ∨ a = '.'
    · refine Or.inr ⟨a, as, ?_, ha, fun c hc => h c (by simp [hc])⟩
      rcases hm with rfl | rfl <;> simp [skipToFloatStart]
    · push_neg at hm
      have he : skipToFloatStart (a :: as) = skipToFloatStart as := by
        simp [skipToFloatStart, hm.1, hm.2, ha]
      rw [he]
      exact ih fun c hc => h c (by simp [hc])

/-- `parseFloat` on digitless input returns 0 and leaves only digitless
input behind. -/
lemma parseFloatStep_nodigit (l : List Char) (h : ∀ c ∈ l, c.isDigit = false) :
    (parseFloatStep l).1 = 0 ∧ ∀ c ∈ (parseFloatStep l).2, c.isDigit = false := by
  rcases nodigit_skipToFloatStart l h with h0 | ⟨c, cs, hcs, hc, hnd⟩
  · simp [parseFloatStep, h0]
  · rw [parseFloatStep, hcs]
    exact floatGo_nodigit cs c false false 1 hc hnd

/-- The float drain loop reports 0 when the input holds no digit. -/
lemma drainFloatFuel_nodigit (fuel : Nat) :
    ∀ l : List Char, (∀ c ∈ l, c.isDigit = false) → drainFloatFuel fuel 0 l = 0 := by
  induction fuel with
  | zero => intro l _; rfl
  | succ n ih =>
    intro l h
    cases l with
    | nil => rfl
    | cons c cs =>
      obtain ⟨h1, h2⟩ := parseFloatStep_nodigit (c :: cs) h
      rw [drainFloatFuel, h1]
      exact ih _ h2

/-- `doMenu` never mutates the menu table. -/
lemma doMenu_menuTable (s : State) : (doMenu s).menuTable = s.menuTable := by
  simp only [doMenu]
  split
  · rw [runAction_menuTable]
  · rfl

/-- One pass of `loop()` never mutates the menu table. -/
lemma loopStep_menuTable (now : Nat) (s : State) :
    (loopStep now s).menuTable = s.menuTable := by
  simp only [loopStep]
  split <;> split <;> simp [doMenu_menuTable]

/-- On an unmatched key, `doMenu` only consumes the key and emits the
line-clear sequence. -/
lemma doMenu_unmatched_eq (key : Char) (rest : List Char) (s : State)
    (hin : s.input = key :: rest) (hkey : ∀ e ∈ s.menuTable, e.key ≠ key) :
    doMenu s = { s with input := rest, output := s.output ++ [OutEvent.clearLine] } := by
  simp only [doMenu, hin, List.headD_cons, List.tail_cons,
    findEntry_none key s.menuTable hkey]

/-! ### The claims -/

/-- Claim C1: for every key equal to the key of some entry of the static
menu table, a single call of `doMenu` invokes exactly one handler, namely
the action of the first entry in declaration order whose key matches,
passing the argument of that entry; the scan stops at that entry (no
entry after it is consulted, witnessed by the invocation trace growing by
exactly that one call). -/
theorem doMenu_dispatches_first_match (key : Char) (rest : List Char) (s : State)
    (hin : s.input = key :: rest) (htab : s.menuTable = menu)
    (hkey : ∃ e ∈ menu, e.key = key) :
    ∃ pre e post, menu = pre ++ e :: post ∧ e.key = key ∧
      (∀ x ∈ pre, x.key ≠ key) ∧
      (doMenu s).calls = s.calls ++ [(e.action, e.arg)] := by
  obtain ⟨pre, e, post, hdec, hek, hpre, hfind⟩ := findEntry_first key menu hkey
  refine ⟨pre, e, post, hdec, hek, hpre, ?_⟩
  simp only [doMenu, hin, htab, List.headD_cons, List.tail_cons, hfind, runAction_calls]

theorem doMenu_dispatches_first_match_spec :
    (initState ['h']).input = 'h' :: [] ∧ (initState ['h']).menuTable = menu ∧
    (∃ e ∈ menu, e.key = 'h') ∧
    (∃ pre e post, menu = pre ++ e :: post ∧ e.key = 'h' ∧
      (∀ x ∈ pre, x.key ≠ 'h') ∧
      (doMenu (initState ['h'])).calls = (initState ['h']).calls ++ [(e.action, e.arg)]) :=
  ⟨rfl, rfl, by decide,
    doMenu_dispatches_first_match 'h' [] (initState ['h']) rfl rfl (by decide)⟩

/-- Claim C2: for every key matching no entry of the menu table, a single
call of `doMenu` invokes no handler (the invocation trace is unchanged),
raises no error (it is a total function), and emits no output beyond the
line-clear sequence; the state - in particular the heartbeat-enabled flag
and the menu table - is unchanged except for the consumed key byte. -/
theorem doMenu_unmatched_key (key : Char) (rest : List Char) (s : State)
    (hin : s.input = key :: rest) (hkey : ∀ e ∈ s.menuTable, e.key ≠ key) :
    doMenu s = { s with input := rest, output := s.output ++ [OutEvent.clearLine] } ∧
    (doMenu s).calls = s.calls ∧
    (doMenu s).heartbeatEnabled = s.heartbeatEnabled ∧
    (doMenu s).menuTable = s.menuTable := by
  have h := doMenu_unmatched_eq key rest s hin hkey
  exact ⟨h, by rw [h], by rw [h], by rw [h]⟩

theorem doMenu_unmatched_key_spec :
    (initState ['x']).input = 'x' :: [] ∧
    (∀ e ∈ (initState ['x']).menuTable, e.key ≠ 'x') ∧
    (doMenu (initState ['x']) =
      { (initState ['x']) with
          input := [],
          output := (initState ['x']).output ++ [OutEvent.clearLine] } ∧
      (doMenu (initState ['x'])).calls = (initState ['x']).calls ∧
      (doMenu (initState ['x'])).heartbeatEnabled = (initState ['x']).heartbeatEnabled ∧
      (doMenu (initState ['x'])).menuTable = (initState ['x']).menuTable) :=
  ⟨rfl, by decide, doMenu_unmatched_key 'x' [] (initState ['x']) rfl (by decide)⟩

/-- Claim C3: for every monotonic clock value `now` and every positive
`period` and any `pulseWidth`, `heartbeat` writes the pin high exactly
when `now % period < pulseWidth` and low otherwise; in particular for
`period = 1000` and `pulseWidth = 20` the pin is high iff
`now % 1000 < 20`.  `heartbeat` is a pure function of the clock value and
its arguments: the embedding gives it no access to any other state. -/
theorem heartbeat_level (now period pulseWidth : Nat) (hp : 0 < period) :
    (heartbeat now period pulseWidth = true ↔ now % period < pulseWidth) ∧
    (heartbeat now period pulseWidth = false ↔ ¬ now % period < pulseWidth) ∧
    (heartbeat now 1000 20 = true ↔ now % 1000 < 20) := by
  refine ⟨?_, ?_, ?_⟩ <;> simp [heartbeat]

theorem heartbeat_level_spec :
    0 < 1000 ∧
    ((heartbeat 73015 1000 20 = true ↔ 73015 % 1000 < 20) ∧
      (heartbeat 73015 1000 20 = false ↔ ¬ 73015 % 1000 < 20) ∧
      (heartbeat 73015 1000 20 = true ↔ 73015 % 1000 < 20)) :=
  ⟨by decide, heartbeat_level 73015 1000 20 (by decide)⟩

/-- Claim C4: on the input text `"2024 10 24 12 30 00"`, `setDateTime`
parses six positional fields (year 2024, month 10, day 24, hour 12,
minute 30, second 0), converts them - after the `tm_mon -= 1;
tm_year -= 1900` adjustments - to the absolute timestamp of
October 24, 2024, 12:30:00 (1729773000 seconds since the epoch, i.e.
`86400 * daysFromCivil 2024 10 24 + 12 h 30 min`), and sets the RTC to
exactly that timestamp via `settimeofday`. -/
theorem setDateTime_sets_rtc (s : State)
    (hin : s.input = "2024 10 24 12 30 00".toList) :
    sscanfDateTime s.input = some (2024, 10, 24, 12, 30, 0) ∧
    (setDateTime "" s).rtc =
      some (mktime { tm_sec := 0, tm_min := 30, tm_hour := 12,
                     tm_mday := 24, tm_mon := 9, tm_year := 124 }) ∧
    mktime { tm_sec := 0, tm_min := 30, tm_hour := 12,
             tm_mday := 24, tm_mon := 9, tm_year := 124 } = 1729773000 ∧
    86400 * daysFromCivil 2024 10 24 + (12 * 3600 + 30 * 60 + 0) = 1729773000 := by
  have hscan : sscanfDateTime ("2024 10 24 12 30 00".toList) =
      some (2024, 10, 24, 12, 30, 0) := by decide
  refine ⟨by rw [hin]; exact hscan, ?_, by decide, by decide⟩
  have hne : s.input.isEmpty = false := by rw [hin]; rfl
  have htl : (String.mk s.input).toList = "2024 10 24 12 30 00".toList := by
    rw [hin]; rfl
  simp only [setDateTime, drainReadString, hne, Bool.false_eq_true, if_false,
    htl, hscan, showDateTime]
  norm_num

theorem setDateTime_sets_rtc_spec :
    (initState ("2024 10 24 12 30 00".toList)).input = "2024 10 24 12 30 00".toList ∧
    (sscanfDateTime (initState ("2024 10 24 12 30 00".toList)).input =
        some (2024, 10, 24, 12, 30, 0) ∧
      (setDateTime "" (initState ("2024 10 24 12 30 00".toList))).rtc =
        some (mktime { tm_sec := 0, tm_min := 30, tm_hour := 12,
                       tm_mday := 24, tm_mon := 9, tm_year := 124 }) ∧
      mktime { tm_sec := 0, tm_min := 30, tm_hour := 12,
               tm_mday := 24, tm_mon := 9, tm_year := 124 } = 1729773000 ∧
      86400 * daysFromCivil 2024 10 24 + (12 * 3600 + 30 * 60 + 0) = 1729773000) :=
  ⟨rfl, setDateTime_sets_rtc (initState ("2024 10 24 12 30 00".toList)) rfl⟩

/-- Claim C5: `enterInteger` reports exactly the value produced by the
`parseInt` drain loop on the pending input; on `"42"` that value is 42,
on `"abc"` it is 0, and on any input from which nothing parseable was
entered - empty input or input without a digit - the reported value
defaults to the initial 0. -/
theorem enterInteger_reports (l : List Char) :
    (∀ s : State,
      (enterInteger "" s).output = s.output ++ [OutEvent.intEntered (drainInt s.input)]) ∧
    drainInt ("42".toList) = 42 ∧
    drainInt ("abc".toList) = 0 ∧
    drainInt ([]) = 0 ∧
    ((∀ c ∈ l, c.isDigit = false) → drainInt l = 0) := by
  refine ⟨?_, by decide, by decide, rfl, fun h => drainIntFuel_nodigit l.length l h⟩
  intro s
  by_cases h : s.input.isEmpty
  · have h0 : s.input = [] := by
      cases hi : s.input with
      | nil => rfl
      | cons a as => rw [hi] at h; simp at h
    simp [enterInteger, drainIntState, h, h0, drainInt, drainIntFuel]
  · simp [enterInteger, drainIntState, h]

theorem enterInteger_reports_spec :
    (enterInteger "" (initState ("42".toList))).output =
      (initState ("42".toList)).output ++ [OutEvent.intEntered (drainInt ("42".toList))] ∧
    (∀ c ∈ ("xyz".toList), c.isDigit = false) ∧
    drainInt ("xyz".toList) = 0 :=
  ⟨(enterInteger_reports []).1 (initState ("42".toList)), by decide,
    (enterInteger_reports ("xyz".toList)).2.2.2.2 (by decide)⟩

/-- Claim C6: `enterFloat` reports exactly the value produced by the
`parseFloat` drain loop on the pending input; on `"3.14"` that value is
157/50, i.e. exactly 3.14 in the idealised rational model of the double
arithmetic (approximately 3.14 for the actual doubles); on empty input,
or any input without a digit, the reported value is 0. -/
theorem enterFloat_reports (l : List Char) :
    (∀ s : State,
      (enterFloat "" s).output = s.output ++ [OutEvent.floatEntered (drainFloat s.input)]) ∧
    drainFloat ("3.14".toList) = 157 / 50 ∧
    drainFloat ([]) = 0 ∧
    ((∀ c ∈ l, c.isDigit = false) → drainFloat l = 0) := by
  refine ⟨?_, ?_, rfl, fun h => drainFloatFuel_nodigit l.length l h⟩
  · intro s
    by_cases h : s.input.isEmpty
    · have h0 : s.input = [] := by
        cases hi : s.input with
        | nil => rfl
        | cons a as => rw [hi] at h; simp at h
      simp [enterFloat, drainFloatState, h, h0, drainFloat, drainFloatFuel]
    · simp [enterFloat, drainFloatState, h]
  · simp +decide [drainFloat, drainFloatFuel, parseFloatStep, skipToFloatStart,
      floatGo, String.toList]
    norm_num

theorem enterFloat_reports_spec :
    (enterFloat "" (initState ("3.14".toList))).output =
      (initState ("3.14".toList)).output ++
        [OutEvent.floatEntered (drainFloat ("3.14".toList))] ∧
    (∀ c ∈ (".-x".toList), c.isDigit = false) ∧
    drainFloat (".-x".toList) = 0 :=
  ⟨(enterFloat_reports []).1 (initState ("3.14".toList)), by decide,
    (enterFloat_reports (".-x".toList)).2.2.2 (by decide)⟩

/-- Claim C7: for every initial stream timeout `t`, `setDateTime` performs
its bulk read with the timeout set to `3 * t` (the recorded read timeout,
when input is pending) and has restored the timeout to exactly `t` by the
time it returns; and no action other than `setDateTime` modifies the
stream timeout. -/
theorem setDateTime_timeout_protocol (txt : String) (s : State) :
    (setDateTime txt s).timeout = s.timeout ∧
    (setDateTime txt s).readTimeouts =
      s.readTimeouts ++ (if s.input.isEmpty then [] else [3 * s.timeout]) ∧
    (∀ (a : ActionTag) (arg : String) (t : State), a ≠ ActionTag.setDateTime →
      (runAction a arg t).timeout = t.timeout) := by
  refine ⟨?_, ?_, fun a arg t ha => runAction_timeout a arg t ha⟩ <;>
    simp only [setDateTime, drainReadString, showDateTime] <;>
    repeat' split
  all_goals simp_all [showDateTime]

theorem setDateTime_timeout_protocol_spec :
    (setDateTime "" (initState ("7".toList))).timeout = (initState ("7".toList)).timeout ∧
    (setDateTime "" (initState ("7".toList))).readTimeouts =
      (initState ("7".toList)).readTimeouts ++
        (if (initState ("7".toList)).input.isEmpty then []
         else [3 * (initState ("7".toList)).timeout]) ∧
    ActionTag.sayHello ≠ ActionTag.setDateTime ∧
    (runAction ActionTag.sayHello "Guten Tag" (initState ("7".toList))).timeout =
      (initState ("7".toList)).timeout :=
  ⟨(setDateTime_timeout_protocol "" (initState ("7".toList))).1,
    (setDateTime_timeout_protocol "" (initState ("7".toList))).2.1,
    by decide,
    (setDateTime_timeout_protocol "" (initState ("7".toList))).2.2
      ActionTag.sayHello "Guten Tag" (initState ("7".toList)) (by decide)⟩

/-- Claim C8: one invocation of `toggleHeartbeat` negates the
heartbeat-enabled flag, two consecutive invocations restore it, and the
handler modifies no other program state (pending input, invocation trace,
stream timeout, read trace, RTC, pin and menu table are untouched; it only
additionally prints the new flag value). -/
theorem toggleHeartbeat_involution (txt txt2 : String) (s : State) :
    (toggleHeartbeat txt s).heartbeatEnabled = !s.heartbeatEnabled ∧
    (toggleHeartbeat txt2 (toggleHeartbeat txt s)).heartbeatEnabled = s.heartbeatEnabled ∧
    (toggleHeartbeat txt s).input = s.input ∧
    (toggleHeartbeat txt s).calls = s.calls ∧
    (toggleHeartbeat txt s).timeout = s.timeout ∧
    (toggleHeartbeat txt s).readTimeouts = s.readTimeouts ∧
    (toggleHeartbeat txt s).rtc = s.rtc ∧
    (toggleHeartbeat txt s).pin = s.pin ∧
    (toggleHeartbeat txt s).menuTable = s.menuTable := by
  simp [toggleHeartbeat]

/-- Claim C9: the keys of the static menu table of each program variant
(main.cpp and cliMenu.cpp) are pairwise distinct, and since no operation
of the firmware mutates the table after construction, every reachable
state carries the original table and its key distinctness. -/
theorem menu_keys_distinct :
    (menu.map MenuItem.key).Nodup ∧ (menuUno.map MenuItemUno.key).Nodup ∧
    (∀ s : State, Reachable s →
      s.menuTable = menu ∧ (s.menuTable.map MenuItem.key).Nodup) := by
  refine ⟨by decide, by decide, ?_⟩
  intro s h
  have hmt : s.menuTable = menu := by
    induction h with
    | boot input => rfl
    | step now h ih => rw [loopStep_menuTable]; exact ih
    | feed bytes h ih => exact ih
  exact ⟨hmt, by rw [hmt]; decide⟩

theorem menu_keys_distinct_spec :
    Reachable (showMenu "" (initState [])) ∧
    ((showMenu "" (initState [])).menuTable = menu ∧
      ((showMenu "" (initState [])).menuTable.map MenuItem.key).Nodup) :=
  ⟨Reachable.boot [], menu_keys_distinct.2.2 _ (Reachable.boot [])⟩

/-- Claim C10: the drain loops of the value-entering handlers overwrite
the parsed value on every iteration, so only the result of the last parse
is reported: the integer and float drains equal the last element of their
parse sequences (earlier tokens of the same read cycle are discarded), as
the concrete two-token cycles `"1 2"` and `"1.5 2.5"` illustrate; the
string drain reports the single chunk `readString` collects, which is the
entire pending input. -/
theorem drain_reports_last (l : List Char) (s : State) :
    drainInt l = (parseInts l).getLastD 0 ∧
    drainFloat l = (parseFloats l).getLastD 0 ∧
    parseInts ("1 2".toList) = [1, 2] ∧
    drainInt ("1 2".toList) = 2 ∧
    parseFloats ("1.5 2.5".toList) = [3 / 2, 5 / 2] ∧
    drainFloat ("1.5 2.5".toList) = 5 / 2 ∧
    (drainReadString s).1 = String.mk s.input := by
  refine ⟨drainIntFuel_getLastD l.length 0 l, drainFloatFuel_getLastD l.length 0 l,
    by decide, by decide, ?_, ?_, ?_⟩
  · simp +decide [parseFloats, parseFloatsFuel, parseFloatStep, skipToFloatStart,
      floatGo, String.toList]
    norm_num
  · simp +decide [drainFloat, drainFloatFuel, parseFloatStep, skipToFloatStart,
      floatGo, String.toList]
    norm_num
  · by_cases h : s.input.isEmpty
    · have h0 : s.input = [] := by
        cases hi : s.input with
        | nil => rfl
        | cons a as => rw [hi] at h; simp at h
      simp [drainReadString, h, h0]
    · simp [drainReadString, h]

end CliMenu
